import Mathlib

set_option maxHeartbeats 1000000

namespace SdfBatching

/-! Shallow embedding of the typed-buffer utilities and batch merge engine of
    src/App.js.  Numeric values are modelled as `Int`: `Float32Array` storage
    is treated as exact on the integer magnitudes in scope, while
    `Uint16Array` storage reduces stored values modulo 2 ^ 16 as JS does. -/

/-- Element kinds of the typed arrays the program uses. -/
inductive TAKind where
  | float32
  | uint16
deriving DecidableEq

/-- JS ToUint16: the value actually stored by a `Uint16Array` write. -/
def toUint16 (v : Int) : Int := v % 65536

/-- The conversion applied when a value is stored into a typed array of the
    given kind (`Float32Array` storage is exact on the integers used here). -/
def convert : TAKind → Int → Int
  | TAKind.float32, v => v
  | TAKind.uint16, v => toUint16 v

/-- A JS typed array: its runtime element kind plus its contents. -/
structure JsTypedArray where
  kind : TAKind
  data : List Int
deriving DecidableEq

/-- Canonicity: the data is stable under the array's own storage conversion.
    Every real JS typed array satisfies this by construction. -/
def JsTypedArray.wf (t : JsTypedArray) : Prop :=
  ∀ v ∈ t.data, convert t.kind v = v

/-- Outcome of running a piece of the JS code: a value, a thrown
    `RangeError` (`TypedArray.set` with an oversized source), a thrown
    `TypeError` (property access on `undefined`), or non-termination of a
    loop. -/
inductive JsOutcome (α : Type) where
  | ok (val : α)
  | rangeError
  | typeError
  | diverge
deriving DecidableEq

def JsOutcome.bind {α β : Type} : JsOutcome α → (α → JsOutcome β) → JsOutcome β
  | JsOutcome.ok v, f => f v
  | JsOutcome.rangeError, _ => JsOutcome.rangeError
  | JsOutcome.typeError, _ => JsOutcome.typeError
  | JsOutcome.diverge, _ => JsOutcome.diverge

def JsOutcome.isOk {α : Type} : JsOutcome α → Bool
  | JsOutcome.ok _ => true
  | JsOutcome.rangeError => false
  | JsOutcome.typeError => false
  | JsOutcome.diverge => false

/-- `target.set(source)` at offset 0, for a source that fits (the caller
    checks the RangeError case first, as JS `set` validates before
    writing). -/
def jsSet (target source : List Int) : List Int :=
  source ++ target.drop source.length

/-- `arr.copyWithin(target, s, e)` for the in-bounds non-negative arguments
    the fill loop uses: copies `arr[s..e)` onto the positions starting at
    `target`, clamped to the array length. -/
def jsCopyWithin (arr : List Int) (target s e : Nat) : List Int :=
  let count := min (e - s) (arr.length - target)
  arr.take target ++ (arr.drop s).take count ++ arr.drop (target + count)

/-- The `while (position < length)` loop of `fillTypedArraySequence` (lines
    269–274), fuel-indexed; `none` means the fuel ran out.
    `sequenceLength <<= 1` is modelled as doubling, which is what the JS
    32-bit shift computes for every admissible typed-array length. -/
def fillLoop (fuel : Nat) (arr : List Int) (length position sequenceLength : Nat) :
    Option (List Int) :=
  match fuel with
  | 0 => none
  | Nat.succ fuel =>
    if position < length then
      let sequenceLength :=
        if position + sequenceLength > length then length - position else sequenceLength
      let arr := jsCopyWithin arr position 0 sequenceLength
      fillLoop fuel arr length (position + sequenceLength) (sequenceLength * 2)
    else
      some arr

/-- `fillTypedArraySequence(typedArray, sequence)` (lines 262–277).
    `typedArray.set(sequence)` throws a RangeError when the pattern is
    longer than the target; afterwards the doubling loop runs.  Fuel
    `length + 1` is sufficient whenever the loop terminates at all (each
    iteration advances `position` by at least one), so `diverge` is
    returned exactly on the non-terminating inputs (empty pattern,
    non-empty target). -/
def fillTypedArraySequence (typedArray sequence : List Int) : JsOutcome (List Int) :=
  if typedArray.length < sequence.length then JsOutcome.rangeError
  else
    match fillLoop (typedArray.length + 1) (jsSet typedArray sequence)
        typedArray.length sequence.length sequence.length with
    | some out => JsOutcome.ok out
    | none => JsOutcome.diverge

/-- The naive reference the spec describes: the pattern repeated
    `targetLength / pattern.length` times when divisible — in general
    `⌈targetLength / pattern.length⌉` times — truncated to `targetLength`. -/
def naiveRepetition (pattern : List Int) (targetLength : Nat) : List Int :=
  (List.flatten (List.replicate ((targetLength + pattern.length - 1) / pattern.length)
    pattern)).take targetLength

/-- `array.set(source, offset)`: element-converted copy of `source` into
    `target` starting at `offset` (callers guarantee the slice fits). -/
def jsSetAt (target source : List Int) (offset : Nat) (k : TAKind) : List Int :=
  target.take offset ++ source.map (convert k) ++ target.drop (offset + source.length)

/-- `mergeTypedArrays(typedArrays)` (lines 243–260).  The result array is
    allocated via the first input's constructor — a `TypeError` on an empty
    input list, since `typedArrays[0]` is `undefined` — and each input is
    `set` at the running offset, converting elements to the result kind. -/
def mergeTypedArrays (typedArrays : List JsTypedArray) : JsOutcome JsTypedArray :=
  match typedArrays with
  | [] => JsOutcome.typeError
  | first :: _ =>
    let length := (typedArrays.map (fun t => t.data.length)).sum
    let start : List Int × Nat := (List.replicate length 0, 0)
    let final := typedArrays.foldl
      (fun acc t => (jsSetAt acc.1 t.data acc.2 first.kind, acc.2 + t.data.length)) start
    JsOutcome.ok { kind := first.kind, data := final.1 }

/-- What an invocation of the external glyph-layout service plus the
    geometry generator yields for one string: a glyph count and the raw
    position/uv component sequences. -/
structure GlyphLayout where
  glyphCount : Nat
  positionsData : List Int
  uvsData : List Int
deriving DecidableEq

/-- Modelled from the spec: the external `quad-indices` package (absent
    from src/) — each glyph contributes the six indices of the two
    triangles of its quad, referencing its four vertices, with a fixed
    consistent winding. -/
def quadIndices (count : Nat) : List Int :=
  (List.range count).flatMap fun g =>
    let q : Int := 4 * (g : Int)
    [q, q + 1, q + 2, q, q + 2, q + 3]

structure TextAttributes where
  positions : JsTypedArray
  uvs : JsTypedArray
  indices : JsTypedArray
deriving DecidableEq

/-- `createTextAttributes(font, text)` (lines 172–191).  The external
    layout service and `FontGeometryGenerator` are abstracted as
    `layoutOf`; the `new Uint16Array(createIndices(...))` wrapper is the
    source's, so each emitted index is stored through ToUint16. -/
def createTextAttributes {F T : Type} (layoutOf : F → T → GlyphLayout) (font : F) (text : T) :
    TextAttributes :=
  let layout := layoutOf font text
  { positions := { kind := TAKind.float32, data := layout.positionsData }
    uvs := { kind := TAKind.float32, data := layout.uvsData }
    indices := { kind := TAKind.uint16, data := (quadIndices layout.glyphCount).map toUint16 } }

/-- Per-instance broadcast of one 2D pair (lines 216–223): a fresh zeroed
    `Float32Array` of length `vertexCount * 2` cyclically filled from the
    pair. -/
def instanceBroadcast (vertexCount : Nat) (pair : List Int) : JsOutcome (List Int) :=
  fillTypedArraySequence (List.replicate (vertexCount * 2) 0) pair

structure InstanceArraysAcc where
  positionsArrays : List JsTypedArray
  uvsArrays : List JsTypedArray
  indicesArrays : List JsTypedArray
  offsetsArrays : List JsTypedArray
  scalesArrays : List JsTypedArray
deriving DecidableEq

/-- The instance loop of `buildMergedText` (lines 202–226): for each string
    build its attributes, add the running vertex total `maxIndex` to every
    entry of its own `Uint16Array` index buffer (stores reduce mod 2^16),
    advance the total by the instance's vertex count
    (`positions.length / 2`), broadcast its offset and scale pairs, and
    collect the five per-instance arrays.  A missing `offsets[i]` or
    `scales[i]` (JS `undefined`) becomes the empty `Float32Array`. -/
def buildLoop {F T : Type} (layoutOf : F → T → GlyphLayout) (font : F) :
    List T → List (List Int) → List (List Int) → Nat → JsOutcome InstanceArraysAcc
  | [], _, _, _ =>
    JsOutcome.ok { positionsArrays := [], uvsArrays := [], indicesArrays := [],
                   offsetsArrays := [], scalesArrays := [] }
  | text :: rest, offs, scls, maxIndex =>
    let ac := createTextAttributes layoutOf font text
    let vertexCount := ac.positions.data.length / 2
    let shifted : JsTypedArray :=
      { kind := TAKind.uint16,
        data := ac.indices.data.map (fun v => toUint16 (v + (maxIndex : Int))) }
    (instanceBroadcast vertexCount (offs.headD [])).bind fun offsetsBuffer =>
    (instanceBroadcast vertexCount (scls.headD [])).bind fun scalesBuffer =>
    (buildLoop layoutOf font rest offs.tail scls.tail (maxIndex + vertexCount)).bind fun acc =>
    JsOutcome.ok
      { positionsArrays := ac.positions :: acc.positionsArrays,
        uvsArrays := ac.uvs :: acc.uvsArrays,
        indicesArrays := shifted :: acc.indicesArrays,
        offsetsArrays := { kind := TAKind.float32, data := offsetsBuffer } :: acc.offsetsArrays,
        scalesArrays := { kind := TAKind.float32, data := scalesBuffer } :: acc.scalesArrays }

structure MergedAttributes where
  positions : JsTypedArray
  uvs : JsTypedArray
  indices : JsTypedArray
  offsets : JsTypedArray
  scales : JsTypedArray
deriving DecidableEq

/-- `buildMergedText(font, textArray, offsets, scales)` (lines 193–241). -/
def buildMergedText {F T : Type} (layoutOf : F → T → GlyphLayout) (font : F)
    (textArray : List T) (offsets scales : List (List Int)) : JsOutcome MergedAttributes :=
  (buildLoop layoutOf font textArray offsets scales 0).bind fun acc =>
  (mergeTypedArrays acc.positionsArrays).bind fun mergedPositions =>
  (mergeTypedArrays acc.uvsArrays).bind fun mergedUvs =>
  (mergeTypedArrays acc.indicesArrays).bind fun mergedIndices =>
  (mergeTypedArrays acc.offsetsArrays).bind fun mergedOffsets =>
  (mergeTypedArrays acc.scalesArrays).bind fun mergedScales =>
  JsOutcome.ok { positions := mergedPositions, uvs := mergedUvs, indices := mergedIndices,
                 offsets := mergedOffsets, scales := mergedScales }

/-- The index buffer an instance contributes before shifting. -/
def localIndexData {F T : Type} (layoutOf : F → T → GlyphLayout) (font : F) (text : T) :
    List Int :=
  (createTextAttributes layoutOf font text).indices.data

/-- An instance's vertex count as the source computes it. -/
def instVertexCount {F T : Type} (layoutOf : F → T → GlyphLayout) (font : F) (text : T) : Nat :=
  (createTextAttributes layoutOf font text).positions.data.length / 2

/-- Total vertex count across a batch of instances. -/
def totalVertexCount {F T : Type} (layoutOf : F → T → GlyphLayout) (font : F) (ts : List T) :
    Nat :=
  (ts.map (instVertexCount layoutOf font)).sum

/-- Reference shape of the merged index buffer: each instance's local
    indices shifted by the running vertex total of its predecessors, with
    the Uint16 store semantics made explicit. -/
def mergedIndicesSpec {F T : Type} (layoutOf : F → T → GlyphLayout) (font : F) :
    List T → Nat → List Int
  | [], _ => []
  | t :: rest, base =>
    (localIndexData layoutOf font t).map (fun v => toUint16 (v + (base : Int))) ++
      mergedIndicesSpec layoutOf font rest (base + instVertexCount layoutOf font t)

/-- Reference shape of the merged index buffer with exact (non-wrapping)
    shifts, as the spec words it. -/
def mergedIndicesExact {F T : Type} (layoutOf : F → T → GlyphLayout) (font : F) :
    List T → Nat → List Int
  | [], _ => []
  | t :: rest, base =>
    (localIndexData layoutOf font t).map (fun v => v + (base : Int)) ++
      mergedIndicesExact layoutOf font rest (base + instVertexCount layoutOf font t)

/-- Modelled from the spec: a concrete glyph-layout service for examples —
    every character is present in the atlas and each glyph contributes four
    vertices (8 position components, 8 uv components).  A text is
    identified with its glyph count. -/
def demoLayout : Unit → Nat → GlyphLayout := fun _ n =>
  { glyphCount := n,
    positionsData := List.replicate (8 * n) 0,
    uvsData := List.replicate (8 * n) 0 }

/-- A layout instantiation realising the spec's 4- and 6-vertex example
    instances (the source derives the vertex count from
    `positions.length / 2`). -/
def exampleLayout : Unit → Nat → GlyphLayout := fun _ n =>
  if n = 0 then
    { glyphCount := 1, positionsData := List.replicate 8 0, uvsData := List.replicate 8 0 }
  else
    { glyphCount := 2, positionsData := List.replicate 12 0, uvsData := List.replicate 12 0 }

instance (t : JsTypedArray) : Decidable t.wf :=
  inferInstanceAs (Decidable (∀ v ∈ t.data, convert t.kind v = v))

lemma toUint16_idem (x : Int) : toUint16 (toUint16 x) = toUint16 x := by
  rw [toUint16, toUint16]
  exact Int.emod_emod_of_dvd x (dvd_refl _)

lemma toUint16_eq_of_lt (x : Int) (h0 : 0 ≤ x) (h1 : x < 65536) : toUint16 x = x :=
  Int.emod_eq_of_lt h0 h1

lemma jsCopyWithin_zero (arr : List Int) : jsCopyWithin arr 0 0 0 = arr := by
  simp [jsCopyWithin]

lemma jsCopyWithin_length (arr : List Int) (t e : Nat) (h : t + e ≤ arr.length) :
    (jsCopyWithin arr t 0 e).length = arr.length := by
  simp only [jsCopyWithin, Nat.sub_zero, List.drop_zero, List.length_append,
    List.length_take, List.length_drop]
  omega

lemma jsCopyWithin_getElem? (arr : List Int) (t e j : Nat) (h : t + e ≤ arr.length) :
    (jsCopyWithin arr t 0 e)[j]? =
      if t ≤ j ∧ j < t + e then arr[j - t]? else arr[j]? := by
  have hcount : min (e - 0) (arr.length - t) = e := by omega
  simp only [jsCopyWithin, hcount, List.drop_zero]
  have lta : (arr.take t).length = t := by rw [List.length_take]; omega
  have lte : (arr.take e).length = e := by rw [List.length_take]; omega
  by_cases h1 : j < t
  · rw [List.getElem?_append_left (by rw [List.length_append, lta, lte]; omega),
      List.getElem?_append_left (by rw [lta]; omega), List.getElem?_take, if_pos h1,
      if_neg (by omega)]
  · by_cases h2 : j < t + e
    · rw [List.getElem?_append_left (by rw [List.length_append, lta, lte]; omega),
        List.getElem?_append_right (by rw [lta]; omega), List.getElem?_take, lta,
        if_pos (by omega), if_pos (by omega)]
    · rw [List.getElem?_append_right (by rw [List.length_append, lta, lte]; omega),
        List.getElem?_drop, if_neg (by omega)]
      congr 1
      rw [List.length_append, lta, lte]
      omega

lemma fillLoop_reaches (pattern : List Int) :
    ∀ (fuel : Nat) (arr : List Int) (L pos s : Nat), arr.length = L → pos ≤ L →
      L - pos < fuel → 1 ≤ s → s ≤ pos →
      (pos = L ∨ (pattern.length ∣ pos ∧ pattern.length ∣ s)) →
      (∀ j, j < pos → arr[j]? = pattern[j % pattern.length]?) →
      ∃ out, fillLoop fuel arr L pos s = some out ∧ out.length = L ∧
        ∀ j, j < L → out[j]? = pattern[j % pattern.length]? := by
  intro fuel
  induction fuel with
  | zero => intro arr L pos s _ _ hfuel _ _ _ _; omega
  | succ fuel ih =>
    intro arr L pos s hlen hposL hfuel hs1 hspos hdvd hpre
    by_cases hlt : pos < L
    · have hdvd2 : pattern.length ∣ pos ∧ pattern.length ∣ s := by
        rcases hdvd with h | h
        · omega
        · exact h
      simp only [fillLoop, if_pos hlt]
      set s2 := if pos + s > L then L - pos else s with hs2def
      have hs2le : pos + s2 ≤ L := by
        rw [hs2def]; split <;> omega
      have hs2ge : 1 ≤ s2 := by
        rw [hs2def]; split <;> omega
      have hs2pos : s2 ≤ pos := by
        rw [hs2def]; split <;> omega
      have hlen2 : pos + s2 ≤ arr.length := by omega
      apply ih (jsCopyWithin arr pos 0 s2) L (pos + s2) (s2 * 2)
      · rw [jsCopyWithin_length arr pos s2 hlen2, hlen]
      · omega
      · omega
      · omega
      · omega
      · rw [hs2def]
        split
        · left; omega
        · right
          exact ⟨dvd_add hdvd2.1 hdvd2.2, Dvd.dvd.mul_right hdvd2.2 2⟩
      · intro j hj
        rw [jsCopyWithin_getElem? arr pos s2 j hlen2]
        by_cases hjpos : j < pos
        · rw [if_neg (by omega)]
          exact hpre j hjpos
        · rw [if_pos (by omega)]
          rw [hpre (j - pos) (by omega)]
          have hjge : pos ≤ j := by omega
          have hmod : j % pattern.length = (j - pos) % pattern.length := by
            conv_lhs => rw [← Nat.add_sub_cancel' hjge]
            obtain ⟨c, hc⟩ := hdvd2.1
            rw [hc, Nat.mul_add_mod]
          rw [hmod]
    · have hpl : pos = L := by omega
      refine ⟨arr, ?_, hlen, ?_⟩
      · simp only [fillLoop, if_neg hlt]
      · intro j hj
        exact hpre j (by omega)

lemma fill_ok_pointwise (typedArray pattern : List Int) (h1 : 1 ≤ pattern.length)
    (h2 : pattern.length ≤ typedArray.length) :
    ∃ out, fillTypedArraySequence typedArray pattern = JsOutcome.ok out ∧
      out.length = typedArray.length ∧
      ∀ j, j < typedArray.length → out[j]? = pattern[j % pattern.length]? := by
  have hnot : ¬ typedArray.length < pattern.length := by omega
  have hset : (jsSet typedArray pattern).length = typedArray.length := by
    simp only [jsSet, List.length_append, List.length_drop]
    omega
  have hpre : ∀ j, j < pattern.length →
      (jsSet typedArray pattern)[j]? = pattern[j % pattern.length]? := by
    intro j hj
    simp only [jsSet]
    rw [List.getElem?_append_left hj, Nat.mod_eq_of_lt hj]
  obtain ⟨out, hloop, hlen, hpt⟩ := fillLoop_reaches pattern (typedArray.length + 1)
    (jsSet typedArray pattern) typedArray.length pattern.length pattern.length
    hset h2 (by omega) h1 le_rfl (Or.inr ⟨dvd_refl _, dvd_refl _⟩) hpre
  refine ⟨out, ?_, hlen, hpt⟩
  rw [fillTypedArraySequence, if_neg hnot, hloop]

lemma fillLoop_stuck (L : Nat) (hL : 1 ≤ L) :
    ∀ (fuel : Nat) (arr : List Int), fillLoop fuel arr L 0 0 = none := by
  intro fuel
  induction fuel with
  | zero => intro arr; rfl
  | succ fuel ih =>
    intro arr
    simp only [fillLoop, if_pos (by omega : 0 < L)]
    have h0 : ¬ (0 + 0 > L) := by omega
    rw [if_neg h0]
    rw [jsCopyWithin_zero]
    simpa using ih arr

lemma le_ceilDiv_mul (L p : Nat) (hp : 1 ≤ p) : L ≤ ((L + p - 1) / p) * p := by
  rcases Nat.eq_zero_or_pos L with hL | hL
  · omega
  · have h3 : L + p - 1 = (L - 1) + p := by omega
    have h4 : (L + p - 1) / p = (L - 1) / p + 1 := by
      rw [h3, Nat.add_div_right _ (by omega)]
    rw [h4, Nat.add_mul, one_mul, Nat.mul_comm ((L - 1) / p) p]
    have h5 := Nat.div_add_mod (L - 1) p
    have h6 : (L - 1) % p < p := Nat.mod_lt _ (by omega)
    set X := p * ((L - 1) / p)
    omega

lemma flatten_replicate_getElem? (pattern : List Int) :
    ∀ (n j : Nat), j < n * pattern.length →
      (List.flatten (List.replicate n pattern))[j]? = pattern[j % pattern.length]? := by
  intro n
  induction n with
  | zero => intro j hj; omega
  | succ n ih =>
    intro j hj
    rw [List.replicate_succ, List.flatten_cons]
    by_cases hc : j < pattern.length
    · rw [List.getElem?_append_left hc, Nat.mod_eq_of_lt hc]
    · rw [List.getElem?_append_right (by omega)]
      rw [Nat.succ_mul] at hj
      rw [ih (j - pattern.length) (by omega)]
      have hmod : (j - pattern.length) % pattern.length = j % pattern.length := by
        conv_rhs => rw [← Nat.sub_add_cancel (le_of_not_lt hc)]
        rw [Nat.add_mod_right]
      rw [hmod]

lemma naiveRepetition_length (pattern : List Int) (L : Nat) (h1 : 1 ≤ pattern.length) :
    (naiveRepetition pattern L).length = L := by
  have key := le_ceilDiv_mul L pattern.length h1
  rw [naiveRepetition, List.length_take, List.length_flatten, List.map_replicate,
    List.sum_replicate, smul_eq_mul]
  omega

lemma naiveRepetition_getElem? (pattern : List Int) (h1 : 1 ≤ pattern.length) (L j : Nat)
    (hj : j < L) :
    (naiveRepetition pattern L)[j]? = pattern[j % pattern.length]? := by
  have key := le_ceilDiv_mul L pattern.length h1
  rw [naiveRepetition, List.getElem?_take, if_pos hj]
  exact flatten_replicate_getElem? pattern _ j (by omega)

/-- C1: for every pattern `P` with `1 ≤ P.length ≤ L`, the doubling-copy
    fill (`fillTypedArraySequence` over a target of length `L`) produces
    exactly the element sequence of the naive reference that repeats `P`
    `L / P.length` times when `P.length` divides `L` and the truncated
    repetition otherwise; equivalently, element `j` of the result is
    `P[j % P.length]`. -/
theorem fill_matches_naive_repetition (typedArray pattern : List Int)
    (h1 : 1 ≤ pattern.length) (h2 : pattern.length ≤ typedArray.length) :
    fillTypedArraySequence typedArray pattern =
      JsOutcome.ok (naiveRepetition pattern typedArray.length) ∧
    ∀ j, j < typedArray.length →
      (naiveRepetition pattern typedArray.length)[j]? = pattern[j % pattern.length]? := by
  obtain ⟨out, hfill, hlen, hpt⟩ := fill_ok_pointwise typedArray pattern h1 h2
  have heq : out = naiveRepetition pattern typedArray.length := by
    apply List.ext_getElem?
    intro n
    by_cases hn : n < typedArray.length
    · rw [hpt n hn, naiveRepetition_getElem? pattern h1 _ n hn]
    · rw [List.getElem?_eq_none (by omega), List.getElem?_eq_none]
      rw [naiveRepetition_length pattern _ h1]
      omega
  exact ⟨heq ▸ hfill, fun j hj => naiveRepetition_getElem? pattern h1 _ j hj⟩

theorem fill_matches_naive_repetition_witness :
    1 ≤ ([10, 20] : List Int).length ∧
    ([10, 20] : List Int).length ≤ (List.replicate 6 (0 : Int)).length ∧
    fillTypedArraySequence (List.replicate 6 0) [10, 20] =
      JsOutcome.ok (naiveRepetition [10, 20] (List.replicate 6 (0 : Int)).length) :=
  ⟨by decide, by decide,
    (fill_matches_naive_repetition (List.replicate 6 0) [10, 20] (by decide) (by decide)).1⟩

/-- C10: the broadcast-fill loop terminates (with a complete result) for
    every pattern with `1 ≤ pattern.length ≤ target.length`, whereas for an
    empty pattern and a non-empty target the loop makes no progress: it
    returns `none` for every amount of fuel and the call diverges. -/
theorem fill_termination_dichotomy (typedArray pattern : List Int) :
    (1 ≤ pattern.length → pattern.length ≤ typedArray.length →
      ∃ out, fillTypedArraySequence typedArray pattern = JsOutcome.ok out) ∧
    (pattern = [] → 1 ≤ typedArray.length →
      (∀ (fuel : Nat) (arr : List Int), fillLoop fuel arr typedArray.length 0 0 = none) ∧
      fillTypedArraySequence typedArray pattern = JsOutcome.diverge) := by
  constructor
  · intro h1 h2
    obtain ⟨out, hfill, _, _⟩ := fill_ok_pointwise typedArray pattern h1 h2
    exact ⟨out, hfill⟩
  · intro hpat hlen
    subst hpat
    refine ⟨fillLoop_stuck typedArray.length hlen, ?_⟩
    rw [fillTypedArraySequence, if_neg (by simp)]
    simp only [jsSet, List.length_nil, List.drop_zero, List.nil_append]
    rw [fillLoop_stuck typedArray.length hlen]

theorem fill_termination_dichotomy_witness :
    (fillTypedArraySequence [0, 0] [5]).isOk = true ∧
    fillTypedArraySequence [7] [] = JsOutcome.diverge := by
  constructor
  · obtain ⟨out, h⟩ := (fill_termination_dichotomy [0, 0] [5]).1 (by decide) (by decide)
    rw [h]
    rfl
  · exact ((fill_termination_dichotomy [7] []).2 rfl (by decide)).2

/-- C7 counterexample: an empty pattern violates the stated precondition
    `1 ≤ pattern.length`, yet with an empty target the fill raises no error
    at all and returns a (complete, empty) result. -/
theorem fill_no_error_on_empty_pattern :
    fillTypedArraySequence [] [] = JsOutcome.ok [] := rfl

/-- C7 (amended): the fill raises a RangeError (thrown by
    `typedArray.set` before anything is written) exactly when
    `pattern.length > targetLength`; an empty pattern — the other violation
    of the stated precondition — raises nothing: the call returns the
    untouched (empty) target when the target is empty and never terminates
    otherwise.  No `InvalidArgumentError` exists in the code. -/
theorem fill_range_error_iff (typedArray sequence : List Int) :
    (fillTypedArraySequence typedArray sequence = JsOutcome.rangeError ↔
      typedArray.length < sequence.length) ∧
    (sequence = [] →
      fillTypedArraySequence typedArray sequence =
        if typedArray.length = 0 then JsOutcome.ok typedArray else JsOutcome.diverge) := by
  constructor
  · rcases Nat.lt_or_ge typedArray.length sequence.length with hc | hc
    · rw [fillTypedArraySequence, if_pos hc]
      exact ⟨fun _ => hc, fun _ => rfl⟩
    · rw [fillTypedArraySequence, if_neg (by omega)]
      cases hloop : fillLoop (typedArray.length + 1) (jsSet typedArray sequence)
          typedArray.length sequence.length sequence.length with
      | some out =>
        exact ⟨fun h => JsOutcome.noConfusion h, fun h => absurd h (by omega)⟩
      | none =>
        exact ⟨fun h => JsOutcome.noConfusion h, fun h => absurd h (by omega)⟩
  · intro hpat
    subst hpat
    by_cases hl : typedArray.length = 0
    · rw [if_pos hl]
      have hnil : typedArray = [] := List.length_eq_zero.mp hl
      subst hnil
      rfl
    · rw [if_neg hl]
      rw [fillTypedArraySequence, if_neg (by simp)]
      simp only [jsSet, List.length_nil, List.drop_zero, List.nil_append]
      rw [fillLoop_stuck typedArray.length (by omega)]

theorem fill_range_error_iff_witness :
    ([] : List Int) = [] ∧
    fillTypedArraySequence [1] [] =
      (if ([1] : List Int).length = 0 then JsOutcome.ok [1] else JsOutcome.diverge) :=
  ⟨rfl, (fill_range_error_iff [1] []).2 rfl⟩

/-- C5: for an instance with `v ≥ 1` vertices (a positions buffer of
    length `2 * v`), the broadcast buffer the builder creates from a 2D
    pair — exactly as `buildMergedText` creates `offsetsBuffer` and
    `scalesBuffer` — has length equal to the positions buffer's length and
    consists of the pair repeated once per vertex. -/
theorem instance_broadcast_offsets_scales {F T : Type} (layoutOf : F → T → GlyphLayout)
    (font : F) (text : T) (ox oy : Int) (v : Nat)
    (hv : (createTextAttributes layoutOf font text).positions.data.length = 2 * v)
    (h1 : 1 ≤ v) :
    instanceBroadcast ((createTextAttributes layoutOf font text).positions.data.length / 2)
        [ox, oy] =
      JsOutcome.ok (naiveRepetition [ox, oy] (2 * v)) ∧
    (naiveRepetition [ox, oy] (2 * v)).length =
      (createTextAttributes layoutOf font text).positions.data.length ∧
    ∀ k, k < v → (naiveRepetition [ox, oy] (2 * v))[2 * k]? = some ox ∧
      (naiveRepetition [ox, oy] (2 * v))[2 * k + 1]? = some oy := by
  rw [hv]
  have hvc : 2 * v / 2 = v := by omega
  rw [hvc]
  have hnaivelen : (naiveRepetition [ox, oy] (2 * v)).length = 2 * v :=
    naiveRepetition_length [ox, oy] (2 * v) (by simp)
  obtain ⟨out, hfill, hlen, hpt⟩ := fill_ok_pointwise (List.replicate (v * 2) 0) [ox, oy]
    (by simp) (by simp; omega)
  simp only [List.length_replicate] at hlen hpt
  have heq : out = naiveRepetition [ox, oy] (2 * v) := by
    apply List.ext_getElem?
    intro n
    by_cases hn : n < v * 2
    · rw [hpt n hn, naiveRepetition_getElem? [ox, oy] (by simp) (2 * v) n (by omega)]
    · rw [List.getElem?_eq_none (by omega), List.getElem?_eq_none (by omega)]
  refine ⟨?_, hnaivelen, ?_⟩
  · rw [instanceBroadcast]
    rw [← heq]
    exact hfill
  · intro k hk
    constructor
    · rw [naiveRepetition_getElem? [ox, oy] (by simp) (2 * v) (2 * k) (by omega)]
      have hm : 2 * k % ([ox, oy] : List Int).length = 0 := by
        show 2 * k % 2 = 0
        omega
      rw [hm]
      rfl
    · rw [naiveRepetition_getElem? [ox, oy] (by simp) (2 * v) (2 * k + 1) (by omega)]
      have hm : (2 * k + 1) % ([ox, oy] : List Int).length = 1 := by
        show (2 * k + 1) % 2 = 1
        omega
      rw [hm]
      rfl

theorem instance_broadcast_offsets_scales_witness :
    (createTextAttributes (fun (_ : Unit) (_ : Unit) =>
        GlyphLayout.mk 1 (List.replicate 6 0) (List.replicate 6 0)) ()
          ()).positions.data.length = 2 * 3 ∧
    instanceBroadcast ((createTextAttributes (fun (_ : Unit) (_ : Unit) =>
        GlyphLayout.mk 1 (List.replicate 6 0) (List.replicate 6 0)) ()
          ()).positions.data.length / 2) [10, 20] =
      JsOutcome.ok (naiveRepetition [10, 20] (2 * 3)) ∧
    naiveRepetition [10, 20] 6 = [10, 20, 10, 20, 10, 20] ∧
    naiveRepetition [2, 2] 6 = [2, 2, 2, 2, 2, 2] :=
  ⟨by decide,
    (instance_broadcast_offsets_scales
      (fun (_ : Unit) (_ : Unit) => GlyphLayout.mk 1 (List.replicate 6 0) (List.replicate 6 0))
      () () 10 20 3 (by decide) (by decide)).1,
    by decide, by decide⟩

lemma jsSetAt_fill (done src : List Int) (r : Nat) (k : TAKind) :
    jsSetAt (done ++ List.replicate r 0) src done.length k =
      done ++ src.map (convert k) ++ List.replicate (r - src.length) 0 := by
  rw [jsSetAt, List.take_left, List.drop_append, List.drop_replicate]

lemma mergeLoop_flatten (k : TAKind) :
    ∀ (ts : List JsTypedArray) (done : List Int) (r : Nat),
      (ts.map (fun t => t.data.length)).sum = r →
      (ts.foldl (fun acc t => (jsSetAt acc.1 t.data acc.2 k, acc.2 + t.data.length))
        (done ++ List.replicate r 0, done.length)).1 =
      done ++ (ts.map (fun t => t.data.map (convert k))).flatten := by
  intro ts
  induction ts with
  | nil =>
    intro done r hr
    simp only [List.map_nil, List.sum_nil] at hr
    subst hr
    simp
  | cons t rest ih =>
    intro done r hr
    simp only [List.map_cons, List.sum_cons] at hr
    simp only [List.foldl_cons, List.map_cons, List.flatten_cons]
    rw [jsSetAt_fill done t.data r k]
    have hlen : done.length + t.data.length = (done ++ t.data.map (convert k)).length := by
      simp
    rw [hlen]
    have hstep := ih (done ++ t.data.map (convert k)) (r - t.data.length) (by omega)
    rw [hstep, List.append_assoc]

lemma mergeTypedArrays_eq_flatten (first : JsTypedArray) (rest : List JsTypedArray) :
    mergeTypedArrays (first :: rest) =
      JsOutcome.ok ⟨first.kind,
        ((first :: rest).map (fun t => t.data.map (convert first.kind))).flatten⟩ := by
  have hstep := mergeLoop_flatten first.kind (first :: rest) []
    (((first :: rest).map (fun t => t.data.length)).sum) rfl
  simp only [List.nil_append, List.length_nil] at hstep
  simp only [mergeTypedArrays]
  rw [hstep]

lemma map_convert_of_wf (t : JsTypedArray) (h : t.wf) :
    t.data.map (convert t.kind) = t.data := by
  have := List.map_congr_left (l := t.data) (f := convert t.kind) (g := id) h
  simpa using this

lemma flatten_slice {α : Type} (ls : List (List α)) :
    ∀ (i : Nat) (hi : i < ls.length),
      (ls.flatten.drop (((ls.take i).map List.length).sum)).take (ls.get ⟨i, hi⟩).length =
        ls.get ⟨i, hi⟩ := by
  induction ls with
  | nil => intro i hi; simp at hi
  | cons l rest ih =>
    intro i hi
    cases i with
    | zero =>
      simp only [List.take_zero, List.map_nil, List.sum_nil, List.drop_zero,
        List.flatten_cons, List.get]
      exact List.take_left l rest.flatten
    | succ i =>
      simp only [List.take_succ_cons, List.map_cons, List.sum_cons, List.flatten_cons,
        List.get_cons_succ]
      rw [List.drop_append]
      exact ih i (by simpa using hi)

/-- C4: merging a non-empty sequence of same-typed (canonical) buffers
    returns a buffer of their concatenated contents: its length is the sum
    of the input lengths and each input occurs contiguously at the offset
    given by the total length of its predecessors; for a single input the
    result is an element-wise equal copy. -/
theorem mergeTypedArrays_concat_spec (k : TAKind) (ts : List JsTypedArray)
    (hne : ts ≠ []) (hk : ∀ t ∈ ts, t.kind = k) (hwf : ∀ t ∈ ts, t.wf) :
    mergeTypedArrays ts =
      JsOutcome.ok ⟨k, (ts.map (fun t => t.data)).flatten⟩ ∧
    ((ts.map (fun t => t.data)).flatten).length = (ts.map (fun t => t.data.length)).sum ∧
    ∀ (i : Nat) (hi : i < ts.length),
      (((ts.map (fun t => t.data)).flatten).drop
          (((ts.take i).map (fun t => t.data.length)).sum)).take
          (ts.get ⟨i, hi⟩).data.length =
        (ts.get ⟨i, hi⟩).data := by
  refine ⟨?_, ?_, ?_⟩
  · match ts, hne with
    | first :: rest, _ =>
      rw [mergeTypedArrays_eq_flatten first rest]
      have hkind : first.kind = k := hk first (by simp)
      have hdata : (first :: rest).map (fun t => t.data.map (convert first.kind)) =
          (first :: rest).map (fun t => t.data) := by
        apply List.map_congr_left
        intro t ht
        rw [hkind, ← hk t ht]
        exact map_convert_of_wf t (hwf t ht)
      rw [hdata, hkind]
  · rw [List.length_flatten, List.map_map]
    rfl
  · intro i hi
    have hslice := flatten_slice (ts.map (fun t => t.data)) i (by simpa using hi)
    have hget : (ts.map (fun t => t.data)).get ⟨i, by simpa using hi⟩ =
        (ts.get ⟨i, hi⟩).data := by
      simp [List.getElem_map]
    rw [hget] at hslice
    have hpre : ((ts.map (fun t => t.data)).take i).map List.length =
        (ts.take i).map (fun t => t.data.length) := by
      rw [← List.map_take, List.map_map]
      rfl
    rw [hpre] at hslice
    exact hslice

theorem mergeTypedArrays_concat_spec_witness :
    (([⟨TAKind.float32, [1, 2, 3]⟩] : List JsTypedArray) ≠ [] ∧
      (∀ t ∈ ([⟨TAKind.float32, [1, 2, 3]⟩] : List JsTypedArray), t.kind = TAKind.float32) ∧
      ∀ t ∈ ([⟨TAKind.float32, [1, 2, 3]⟩] : List JsTypedArray), t.wf) ∧
    mergeTypedArrays [⟨TAKind.float32, [1, 2, 3]⟩] =
      JsOutcome.ok ⟨TAKind.float32,
        (([⟨TAKind.float32, [1, 2, 3]⟩] : List JsTypedArray).map
          (fun t => t.data)).flatten⟩ :=
  ⟨⟨by decide, by decide, by decide⟩,
    (mergeTypedArrays_concat_spec TAKind.float32 [⟨TAKind.float32, [1, 2, 3]⟩]
      (by decide) (by decide) (by decide)).1⟩

/-- C8 counterexample: merging a `Uint16Array` with a `Float32Array`
    raises no error at all — the result takes the first buffer's type and
    the second buffer's element 70000 is silently stored as
    70000 mod 2^16 = 4464. -/
theorem mergeTypedArrays_mixed_kinds_ok :
    mergeTypedArrays [⟨TAKind.uint16, [5]⟩, ⟨TAKind.float32, [70000]⟩] =
      JsOutcome.ok ⟨TAKind.uint16, [5, 4464]⟩ := by decide

/-- C8 (amended): concatenation performs no element-type check: on any
    non-empty input it succeeds, taking the first buffer's element kind and
    converting every buffer's elements to that kind (for a Uint16 result
    this reduces values mod 2^16); no `TypeMismatchError` is ever raised. -/
theorem mergeTypedArrays_no_type_check (first : JsTypedArray) (rest : List JsTypedArray) :
    mergeTypedArrays (first :: rest) =
      JsOutcome.ok ⟨first.kind,
        ((first :: rest).map (fun t => t.data.map (convert first.kind))).flatten⟩ :=
  mergeTypedArrays_eq_flatten first rest

/-- The per-instance shifted index buffers in batch order. -/
def indicesDataList {F T : Type} (layoutOf : F → T → GlyphLayout) (font : F) :
    List T → Nat → List (List Int)
  | [], _ => []
  | t :: rest, base =>
    ((localIndexData layoutOf font t).map (fun v => toUint16 (v + (base : Int)))) ::
      indicesDataList layoutOf font rest (base + instVertexCount layoutOf font t)

lemma mergedIndicesSpec_eq_flatten {F T : Type} (layoutOf : F → T → GlyphLayout) (font : F) :
    ∀ (ts : List T) (base : Nat),
      mergedIndicesSpec layoutOf font ts base =
        (indicesDataList layoutOf font ts base).flatten := by
  intro ts
  induction ts with
  | nil => intro base; rfl
  | cons t rest ih =>
    intro base
    simp only [mergedIndicesSpec, indicesDataList, List.flatten_cons, ih]

lemma indicesDataList_canonical {F T : Type} (layoutOf : F → T → GlyphLayout) (font : F) :
    ∀ (ts : List T) (base : Nat),
      (indicesDataList layoutOf font ts base).map (List.map (convert TAKind.uint16)) =
        indicesDataList layoutOf font ts base := by
  intro ts
  induction ts with
  | nil => intro base; rfl
  | cons t rest ih =>
    intro base
    simp only [indicesDataList, List.map_cons, ih]
    congr 1
    rw [List.map_map]
    apply List.map_congr_left
    intro v hv
    show convert TAKind.uint16 (toUint16 (v + (base : Int))) = toUint16 (v + (base : Int))
    exact toUint16_idem (v + (base : Int))

lemma buildLoop_ok_inv {F T : Type} (layoutOf : F → T → GlyphLayout) (font : F) :
    ∀ (ts : List T) (offs scls : List (List Int)) (base : Nat) (acc : InstanceArraysAcc),
      buildLoop layoutOf font ts offs scls base = JsOutcome.ok acc →
      acc.indicesArrays.map (fun t => t.data) = indicesDataList layoutOf font ts base ∧
      ∀ t ∈ acc.indicesArrays, t.kind = TAKind.uint16 := by
  intro ts
  induction ts with
  | nil =>
    intro offs scls base acc h
    simp only [buildLoop, JsOutcome.ok.injEq] at h
    subst h
    refine ⟨rfl, ?_⟩
    intro t ht
    simp at ht
  | cons t rest ih =>
    intro offs scls base acc h
    simp only [buildLoop] at h
    cases h1 : instanceBroadcast
        ((createTextAttributes layoutOf font t).positions.data.length / 2)
        (offs.headD []) with
    | ok offsetsBuffer =>
      rw [h1] at h
      simp only [JsOutcome.bind] at h
      cases h2 : instanceBroadcast
          ((createTextAttributes layoutOf font t).positions.data.length / 2)
          (scls.headD []) with
      | ok scalesBuffer =>
        rw [h2] at h
        simp only [JsOutcome.bind] at h
        cases h3 : buildLoop layoutOf font rest offs.tail scls.tail
            (base + (createTextAttributes layoutOf font t).positions.data.length / 2) with
        | ok acc2 =>
          rw [h3] at h
          simp only [JsOutcome.bind, JsOutcome.ok.injEq] at h
          subst h
          obtain ⟨hmap, hkinds⟩ := ih offs.tail scls.tail _ acc2 h3
          constructor
          · simp only [List.map_cons, hmap]
            rfl
          · intro u hu
            rcases List.mem_cons.mp hu with hu | hu
            · rw [hu]
            · exact hkinds u hu
        | rangeError => rw [h3] at h; simp only [JsOutcome.bind] at h; exact JsOutcome.noConfusion h
        | typeError => rw [h3] at h; simp only [JsOutcome.bind] at h; exact JsOutcome.noConfusion h
        | diverge => rw [h3] at h; simp only [JsOutcome.bind] at h; exact JsOutcome.noConfusion h
      | rangeError => rw [h2] at h; simp only [JsOutcome.bind] at h; exact JsOutcome.noConfusion h
      | typeError => rw [h2] at h; simp only [JsOutcome.bind] at h; exact JsOutcome.noConfusion h
      | diverge => rw [h2] at h; simp only [JsOutcome.bind] at h; exact JsOutcome.noConfusion h
    | rangeError => rw [h1] at h; simp only [JsOutcome.bind] at h; exact JsOutcome.noConfusion h
    | typeError => rw [h1] at h; simp only [JsOutcome.bind] at h; exact JsOutcome.noConfusion h
    | diverge => rw [h1] at h; simp only [JsOutcome.bind] at h; exact JsOutcome.noConfusion h

lemma buildMergedText_indices {F T : Type} (layoutOf : F → T → GlyphLayout) (font : F)
    (ts : List T) (offs scls : List (List Int)) (m : MergedAttributes)
    (h : buildMergedText layoutOf font ts offs scls = JsOutcome.ok m) :
    m.indices.kind = TAKind.uint16 ∧
    m.indices.data = mergedIndicesSpec layoutOf font ts 0 := by
  rw [buildMergedText] at h
  cases hb : buildLoop layoutOf font ts offs scls 0 with
  | ok acc =>
    rw [hb] at h
    simp only [JsOutcome.bind] at h
    cases hmp : mergeTypedArrays acc.positionsArrays with
    | ok mp =>
      rw [hmp] at h
      simp only [JsOutcome.bind] at h
      cases hmu : mergeTypedArrays acc.uvsArrays with
      | ok mu =>
        rw [hmu] at h
        simp only [JsOutcome.bind] at h
        cases hmi : mergeTypedArrays acc.indicesArrays with
        | ok mi =>
          rw [hmi] at h
          simp only [JsOutcome.bind] at h
          cases hmo : mergeTypedArrays acc.offsetsArrays with
          | ok mo =>
            rw [hmo] at h
            simp only [JsOutcome.bind] at h
            cases hms : mergeTypedArrays acc.scalesArrays with
            | ok ms =>
              rw [hms] at h
              simp only [JsOutcome.bind, JsOutcome.ok.injEq] at h
              subst h
              obtain ⟨hmap, hkinds⟩ := buildLoop_ok_inv layoutOf font ts offs scls 0 acc hb
              cases hacc : acc.indicesArrays with
              | nil =>
                rw [hacc] at hmi
                exact JsOutcome.noConfusion hmi
              | cons i0 irest =>
                rw [hacc] at hmi hmap hkinds
                rw [mergeTypedArrays_eq_flatten i0 irest] at hmi
                have hkind0 : i0.kind = TAKind.uint16 := hkinds i0 (by simp)
                have hmi2 := (JsOutcome.ok.injEq _ _).mp hmi
                have hdata : mi.data =
                    ((i0 :: irest).map (fun u => u.data.map (convert i0.kind))).flatten := by
                  rw [← hmi2]
                have hmk : mi.kind = TAKind.uint16 := by
                  rw [← hmi2, hkind0]
                refine ⟨hmk, ?_⟩
                rw [hdata, hkind0]
                have hcomp : (i0 :: irest).map (fun u => u.data.map (convert TAKind.uint16)) =
                    ((i0 :: irest).map (fun u => u.data)).map (List.map (convert TAKind.uint16)) := by
                  rw [List.map_map]
                  rfl
                rw [hcomp, hmap, indicesDataList_canonical,
                  mergedIndicesSpec_eq_flatten]
            | rangeError => rw [hms] at h; simp only [JsOutcome.bind] at h; exact JsOutcome.noConfusion h
            | typeError => rw [hms] at h; simp only [JsOutcome.bind] at h; exact JsOutcome.noConfusion h
            | diverge => rw [hms] at h; simp only [JsOutcome.bind] at h; exact JsOutcome.noConfusion h
          | rangeError => rw [hmo] at h; simp only [JsOutcome.bind] at h; exact JsOutcome.noConfusion h
          | typeError => rw [hmo] at h; simp only [JsOutcome.bind] at h; exact JsOutcome.noConfusion h
          | diverge => rw [hmo] at h; simp only [JsOutcome.bind] at h; exact JsOutcome.noConfusion h
        | rangeError => rw [hmi] at h; simp only [JsOutcome.bind] at h; exact JsOutcome.noConfusion h
        | typeError => rw [hmi] at h; simp only [JsOutcome.bind] at h; exact JsOutcome.noConfusion h
        | diverge => rw [hmi] at h; simp only [JsOutcome.bind] at h; exact JsOutcome.noConfusion h
      | rangeError => rw [hmu] at h; simp only [JsOutcome.bind] at h; exact JsOutcome.noConfusion h
      | typeError => rw [hmu] at h; simp only [JsOutcome.bind] at h; exact JsOutcome.noConfusion h
      | diverge => rw [hmu] at h; simp only [JsOutcome.bind] at h; exact JsOutcome.noConfusion h
    | rangeError => rw [hmp] at h; simp only [JsOutcome.bind] at h; exact JsOutcome.noConfusion h
    | typeError => rw [hmp] at h; simp only [JsOutcome.bind] at h; exact JsOutcome.noConfusion h
    | diverge => rw [hmp] at h; simp only [JsOutcome.bind] at h; exact JsOutcome.noConfusion h
  | rangeError => rw [hb] at h; simp only [JsOutcome.bind] at h; exact JsOutcome.noConfusion h
  | typeError => rw [hb] at h; simp only [JsOutcome.bind] at h; exact JsOutcome.noConfusion h
  | diverge => rw [hb] at h; simp only [JsOutcome.bind] at h; exact JsOutcome.noConfusion h

/-- C9: per-instance index buffers are 16-bit unsigned (`Uint16Array`), so
    the index-rewriting step stores each shifted index reduced modulo 2^16
    (`toUint16`), as `mergedIndicesSpec` makes explicit: whenever the
    running vertex total plus a local index reaches 65536, the stored value
    is the sum mod 65536, not the true shifted index. -/
theorem merged_indices_mod_uint16 {F T : Type} (layoutOf : F → T → GlyphLayout) (font : F)
    (ts : List T) (offs scls : List (List Int)) (m : MergedAttributes)
    (h : buildMergedText layoutOf font ts offs scls = JsOutcome.ok m) :
    (∀ text : T, (createTextAttributes layoutOf font text).indices.kind = TAKind.uint16) ∧
    m.indices.kind = TAKind.uint16 ∧
    m.indices.data = mergedIndicesSpec layoutOf font ts 0 :=
  ⟨fun _ => rfl, buildMergedText_indices layoutOf font ts offs scls m h⟩

def c9Example : MergedAttributes :=
  ⟨⟨TAKind.float32, List.replicate 8 0⟩, ⟨TAKind.float32, List.replicate 8 0⟩,
    ⟨TAKind.uint16, [0, 1, 2, 0, 2, 3]⟩, ⟨TAKind.float32, [3, 4, 3, 4, 3, 4, 3, 4]⟩,
    ⟨TAKind.float32, [5, 6, 5, 6, 5, 6, 5, 6]⟩⟩

theorem merged_indices_mod_uint16_witness :
    buildMergedText demoLayout () [1] [[3, 4]] [[5, 6]] = JsOutcome.ok c9Example ∧
    c9Example.indices.kind = TAKind.uint16 ∧
    c9Example.indices.data = mergedIndicesSpec demoLayout () [1] 0 :=
  ⟨by decide,
    (merged_indices_mod_uint16 demoLayout () [1] [[3, 4]] [[5, 6]] c9Example (by decide)).2⟩

lemma buildLoop_take {F T : Type} (layoutOf : F → T → GlyphLayout) (font : F) :
    ∀ (ts : List T) (offs scls : List (List Int)) (base : Nat),
      buildLoop layoutOf font ts offs scls base =
        buildLoop layoutOf font ts (offs.take ts.length) (scls.take ts.length) base := by
  intro ts
  induction ts with
  | nil => intro offs scls base; rfl
  | cons t rest ih =>
    intro offs scls base
    have hoh : (offs.take (t :: rest).length).headD [] = offs.headD [] := by
      cases offs <;> simp
    have hot : (offs.take (t :: rest).length).tail = offs.tail.take rest.length := by
      cases offs <;> simp
    have hsh : (scls.take (t :: rest).length).headD [] = scls.headD [] := by
      cases scls <;> simp
    have hst : (scls.take (t :: rest).length).tail = scls.tail.take rest.length := by
      cases scls <;> simp
    simp only [buildLoop, hoh, hot, hsh, hst]
    congr 1
    funext offsetsBuffer
    congr 1
    funext scalesBuffer
    rw [ih]

/-- C6 counterexample: called with 1 string but 2 scale entries
    (mismatched parallel sequence lengths), the merge completes and returns
    a full result — no `InvalidArgumentError` is raised. -/
theorem buildMergedText_mismatched_lengths_ok :
    (buildMergedText demoLayout () [1] [[0, 0]] [[1, 1], [2, 2]]).isOk = true := by decide

/-- C6 (amended): the Batch Merge Engine performs no length validation on
    its parallel input sequences: its result depends only on the first
    `strings.length` entries of `offsets` and `scales`, so surplus entries
    are silently ignored rather than raising `InvalidArgumentError`. -/
theorem buildMergedText_ignores_surplus_entries {F T : Type}
    (layoutOf : F → T → GlyphLayout) (font : F) (ts : List T)
    (offs scls : List (List Int)) :
    buildMergedText layoutOf font ts offs scls =
      buildMergedText layoutOf font ts (offs.take ts.length) (scls.take ts.length) := by
  rw [buildMergedText, buildMergedText, buildLoop_take]

lemma mergedIndicesSpec_eq_exact {F T : Type} (layoutOf : F → T → GlyphLayout) (font : F) :
    ∀ (ts : List T) (base : Nat),
      (∀ t ∈ ts, ∀ v ∈ localIndexData layoutOf font t,
        0 ≤ v ∧ v + ((base + totalVertexCount layoutOf font ts : Nat) : Int) < 65536) →
      mergedIndicesSpec layoutOf font ts base = mergedIndicesExact layoutOf font ts base := by
  intro ts
  induction ts with
  | nil => intro base hb; rfl
  | cons t rest ih =>
    intro base hb
    have htot : totalVertexCount layoutOf font (t :: rest) =
        instVertexCount layoutOf font t + totalVertexCount layoutOf font rest := by
      simp [totalVertexCount]
    simp only [mergedIndicesSpec, mergedIndicesExact]
    congr 1
    · apply List.map_congr_left
      intro v hv
      obtain ⟨hv0, hvlt⟩ := hb t (by simp) v hv
      apply toUint16_eq_of_lt
      · omega
      · omega
    · apply ih
      intro u hu v hv
      obtain ⟨hv0, hvlt⟩ := hb u (by simp [hu]) v hv
      exact ⟨hv0, by omega⟩

lemma mergedIndicesExact_segment {F T : Type} (layoutOf : F → T → GlyphLayout) (font : F) :
    ∀ (ts : List T) (base : Nat) (i : Nat) (hi : i < ts.length),
      ((mergedIndicesExact layoutOf font ts base).drop
          (((ts.take i).map (fun u => (localIndexData layoutOf font u).length)).sum)).take
          (localIndexData layoutOf font (ts.get ⟨i, hi⟩)).length =
        (localIndexData layoutOf font (ts.get ⟨i, hi⟩)).map
          (fun v => v +
            ((base + ((ts.take i).map (instVertexCount layoutOf font)).sum : Nat) : Int)) := by
  intro ts
  induction ts with
  | nil => intro base i hi; simp at hi
  | cons t rest ih =>
    intro base i hi
    cases i with
    | zero =>
      simp only [List.take_zero, List.map_nil, List.sum_nil, List.drop_zero,
        mergedIndicesExact, List.get]
      rw [List.take_left' (by simp)]
      apply List.map_congr_left
      intro v hv
      norm_num
    | succ i =>
      have hi2 : i < rest.length := by simpa using hi
      simp only [List.take_succ_cons, List.map_cons, List.sum_cons, List.get_cons_succ,
        mergedIndicesExact]
      have hlenmap : (localIndexData layoutOf font t).length =
          ((localIndexData layoutOf font t).map
            (fun v => v + ((base : Nat) : Int))).length := by
        simp
      rw [hlenmap, List.drop_append, ih (base + instVertexCount layoutOf font t) i hi2]
      have heq : base + instVertexCount layoutOf font t +
          ((rest.take i).map (instVertexCount layoutOf font)).sum =
          base + (instVertexCount layoutOf font t +
            ((rest.take i).map (instVertexCount layoutOf font)).sum) := by
        omega
      rw [heq]

/-- C2: when no Uint16 wrap occurs, each instance's local index values
    appear in the merged index buffer shifted by the sum of the vertex
    counts of instances `0..i-1` (the shift was applied to the instance's
    own buffer before concatenation): the merged buffer equals the
    concatenation of the per-instance shifted buffers
    (`mergedIndicesExact`), and the segment of the merged buffer belonging
    to instance `i` is exactly its local index list shifted by the prefix
    vertex-count sum. -/
theorem merged_indices_shifted_by_vertex_counts {F T : Type}
    (layoutOf : F → T → GlyphLayout) (font : F) (ts : List T)
    (offs scls : List (List Int)) (m : MergedAttributes)
    (h : buildMergedText layoutOf font ts offs scls = JsOutcome.ok m)
    (hb : ∀ t ∈ ts, ∀ v ∈ localIndexData layoutOf font t,
      0 ≤ v ∧ v + ((totalVertexCount layoutOf font ts : Nat) : Int) < 65536) :
    m.indices.data = mergedIndicesExact layoutOf font ts 0 ∧
    ∀ (i : Nat) (hi : i < ts.length),
      ((m.indices.data).drop
          (((ts.take i).map (fun u => (localIndexData layoutOf font u).length)).sum)).take
          (localIndexData layoutOf font (ts.get ⟨i, hi⟩)).length =
        (localIndexData layoutOf font (ts.get ⟨i, hi⟩)).map
          (fun v => v + ((((ts.take i).map (instVertexCount layoutOf font)).sum : Nat) : Int)) := by
  obtain ⟨_, hdata⟩ := buildMergedText_indices layoutOf font ts offs scls m h
  have hexact : m.indices.data = mergedIndicesExact layoutOf font ts 0 := by
    rw [hdata]
    apply mergedIndicesSpec_eq_exact
    intro t ht v hv
    obtain ⟨h0, h1⟩ := hb t ht v hv
    exact ⟨h0, by omega⟩
  refine ⟨hexact, ?_⟩
  intro i hi
  rw [hexact]
  have hseg := mergedIndicesExact_segment layoutOf font ts 0 i hi
  simpa using hseg

def c2Example : MergedAttributes :=
  ⟨⟨TAKind.float32, List.replicate 20 0⟩, ⟨TAKind.float32, List.replicate 20 0⟩,
    ⟨TAKind.uint16, [0, 1, 2, 0, 2, 3, 4, 5, 6, 4, 6, 7, 8, 9, 10, 8, 10, 11]⟩,
    ⟨TAKind.float32, List.replicate 20 0⟩, ⟨TAKind.float32, List.replicate 20 1⟩⟩

theorem merged_indices_shifted_by_vertex_counts_witness :
    buildMergedText exampleLayout () [0, 1] [[0, 0], [0, 0]] [[1, 1], [1, 1]] =
      JsOutcome.ok c2Example ∧
    c2Example.indices.data = mergedIndicesExact exampleLayout () [0, 1] 0 ∧
    mergedIndicesExact exampleLayout () [0, 1] 0 =
      [0, 1, 2, 0, 2, 3, 4, 5, 6, 4, 6, 7, 8, 9, 10, 8, 10, 11] :=
  ⟨by decide,
    (merged_indices_shifted_by_vertex_counts exampleLayout () [0, 1] [[0, 0], [0, 0]]
      [[1, 1], [1, 1]] c2Example (by decide) (by decide)).1,
    by decide⟩

lemma localIndexData_eq {F T : Type} (layoutOf : F → T → GlyphLayout) (font : F) (t : T) :
    localIndexData layoutOf font t =
      (quadIndices (layoutOf font t).glyphCount).map toUint16 := rfl

lemma quadIndices_bounds (n : Nat) :
    ∀ v ∈ quadIndices n, 0 ≤ v ∧ v < 4 * (n : Int) := by
  intro v hv
  rw [quadIndices, List.mem_flatMap] at hv
  obtain ⟨g, hg, hv⟩ := hv
  rw [List.mem_range] at hg
  have hgn : (g : Int) < (n : Int) := by exact_mod_cast hg
  have hg0 : (0 : Int) ≤ (g : Int) := Int.ofNat_nonneg g
  simp only [List.mem_cons, List.not_mem_nil, or_false] at hv
  omega

lemma quadIndices_top_mem (n : Nat) (hn : 1 ≤ n) : 4 * (n : Int) - 1 ∈ quadIndices n := by
  rw [quadIndices, List.mem_flatMap]
  refine ⟨n - 1, by rw [List.mem_range]; omega, ?_⟩
  simp only [List.mem_cons, List.not_mem_nil, or_false]
  omega

lemma mergedIndicesSpec_max {F T : Type} (layoutOf : F → T → GlyphLayout) (font : F) :
    ∀ (ts : List T) (base : Nat),
      (∀ t ∈ ts, (layoutOf font t).positionsData.length = 8 * (layoutOf font t).glyphCount) →
      base + totalVertexCount layoutOf font ts ≤ 65536 →
      (∀ v ∈ mergedIndicesSpec layoutOf font ts base,
        0 ≤ v ∧ v < ((base + totalVertexCount layoutOf font ts : Nat) : Int)) ∧
      (1 ≤ totalVertexCount layoutOf font ts →
        ((base + totalVertexCount layoutOf font ts : Nat) : Int) - 1 ∈
          mergedIndicesSpec layoutOf font ts base) := by
  intro ts
  induction ts with
  | nil =>
    intro base hcons htot
    constructor
    · intro v hv
      simp [mergedIndicesSpec] at hv
    · intro h1
      simp [totalVertexCount] at h1
  | cons t rest ih =>
    intro base hcons htot
    have hvc : instVertexCount layoutOf font t = 4 * (layoutOf font t).glyphCount := by
      have h8 := hcons t (by simp)
      have hpos : instVertexCount layoutOf font t =
          (layoutOf font t).positionsData.length / 2 := rfl
      rw [hpos, h8]
      omega
    have htotc : totalVertexCount layoutOf font (t :: rest) =
        instVertexCount layoutOf font t + totalVertexCount layoutOf font rest := by
      simp [totalVertexCount]
    have hg16 : 4 * (layoutOf font t).glyphCount ≤ 65536 := by omega
    have hheadeq : (localIndexData layoutOf font t).map
        (fun v => toUint16 (v + (base : Int))) =
        (quadIndices (layoutOf font t).glyphCount).map (fun v0 => v0 + (base : Int)) := by
      rw [localIndexData_eq, List.map_map]
      apply List.map_congr_left
      intro v0 hv0
      obtain ⟨h0, h1⟩ := quadIndices_bounds _ v0 hv0
      show toUint16 (toUint16 v0 + (base : Int)) = v0 + (base : Int)
      rw [toUint16_eq_of_lt v0 h0 (by omega), toUint16_eq_of_lt _ (by omega) (by omega)]
    obtain ⟨ihb, ihm⟩ := ih (base + instVertexCount layoutOf font t)
      (fun u hu => hcons u (by simp [hu])) (by omega)
    simp only [mergedIndicesSpec]
    rw [hheadeq]
    constructor
    · intro w hw
      rcases List.mem_append.mp hw with hw | hw
      · obtain ⟨v0, hv0, hfv⟩ := List.mem_map.mp hw
        obtain ⟨h0, h1⟩ := quadIndices_bounds _ v0 hv0
        constructor <;> omega
      · obtain ⟨h0, h1⟩ := ihb w hw
        exact ⟨h0, by omega⟩
    · intro h1tot
      rcases Nat.eq_zero_or_pos (totalVertexCount layoutOf font rest) with hr0 | hrpos
      · have hgpos : 1 ≤ (layoutOf font t).glyphCount := by omega
        apply List.mem_append.mpr
        left
        apply List.mem_map.mpr
        refine ⟨4 * (((layoutOf font t).glyphCount : Nat) : Int) - 1,
          quadIndices_top_mem _ hgpos, ?_⟩
        omega
      · apply List.mem_append.mpr
        right
        have heq : ((base + totalVertexCount layoutOf font (t :: rest) : Nat) : Int) - 1 =
            ((base + instVertexCount layoutOf font t +
              totalVertexCount layoutOf font rest : Nat) : Int) - 1 := by
          omega
        rw [heq]
        exact ihm hrpos

/-- C3 (amended): for every batch whose glyph layouts have the
    4-vertices-per-glyph shape, with at least one vertex in total and a
    total vertex count of at most 2^16, a successful merge yields an index
    buffer whose maximum value is the total vertex count minus 1 and whose
    every entry is non-negative.  (For N = 0 the merge throws a TypeError
    instead of returning a buffer.) -/
theorem merged_indices_max_total_minus_one {F T : Type}
    (layoutOf : F → T → GlyphLayout) (font : F) (ts : List T)
    (offs scls : List (List Int)) (m : MergedAttributes)
    (h : buildMergedText layoutOf font ts offs scls = JsOutcome.ok m)
    (hcons : ∀ t ∈ ts, (layoutOf font t).positionsData.length =
      8 * (layoutOf font t).glyphCount)
    (h1 : 1 ≤ totalVertexCount layoutOf font ts)
    (h2 : totalVertexCount layoutOf font ts ≤ 65536) :
    m.indices.data.maximum =
      (((totalVertexCount layoutOf font ts : Int) - 1 : Int) : WithBot Int) ∧
    ∀ v ∈ m.indices.data, 0 ≤ v := by
  obtain ⟨_, hdata⟩ := buildMergedText_indices layoutOf font ts offs scls m h
  obtain ⟨hb, hm⟩ := mergedIndicesSpec_max layoutOf font ts 0 hcons (by omega)
  rw [hdata]
  constructor
  · apply List.maximum_eq_coe_iff.mpr
    constructor
    · have heq : ((totalVertexCount layoutOf font ts : Int) - 1 : Int) =
          ((0 + totalVertexCount layoutOf font ts : Nat) : Int) - 1 := by omega
      rw [heq]
      exact hm h1
    · intro a ha
      obtain ⟨h0, hlt⟩ := hb a ha
      omega
  · intro v hv
    exact (hb v hv).1

/-- C3 counterexample: for the valid instance count N = 0 the merge throws
    a TypeError (`mergeTypedArrays` reads `typedArrays[0].constructor` on
    an empty array list), so no merged index buffer is returned at all. -/
theorem buildMergedText_empty_batch_type_error :
    buildMergedText demoLayout () ([] : List Nat) [] [] = JsOutcome.typeError := by decide

def c3Example : MergedAttributes :=
  ⟨⟨TAKind.float32, List.replicate 16 0⟩, ⟨TAKind.float32, List.replicate 16 0⟩,
    ⟨TAKind.uint16, [0, 1, 2, 0, 2, 3, 4, 5, 6, 4, 6, 7]⟩,
    ⟨TAKind.float32, List.replicate 16 0⟩, ⟨TAKind.float32, List.replicate 16 1⟩⟩

theorem merged_indices_max_total_minus_one_witness :
    buildMergedText demoLayout () [2] [[0, 0]] [[1, 1]] = JsOutcome.ok c3Example ∧
    c3Example.indices.data.maximum =
      (((totalVertexCount demoLayout () [2] : Int) - 1 : Int) : WithBot Int) :=
  ⟨by decide,
    (merged_indices_max_total_minus_one demoLayout () [2] [[0, 0]] [[1, 1]] c3Example
      (by decide) (by decide) (by decide) (by decide)).1⟩

end SdfBatching
